import Mathlib

/-!
Verification of the resilient bounded-concurrency task engine of
esmplus-core.js: the configuration surface (setConfig / getConfig), the
retrying request client (postJSON) and the bounded worker pool
(runWithConcurrency).

The JS code is shallowly embedded: the mutable CONFIG singleton becomes
explicit state passing, the cooperative (single-threaded, suspension-point
interleaved) execution of the worker pool becomes a small-step relation
driven by an explicit schedule of events, and each fetch attempt's outcome
is supplied by an environment function, since the transport is external.
-/

set_option linter.deprecated false

deriving instance DecidableEq for Except

/-! ## JS object model for the CONFIG surface -/

/-- JS values stored in CONFIG-shaped objects. -/
inductive JsVal where
  | num (n : Int)
  | bool (b : Bool)
  | str (s : String)
deriving DecidableEq

/-- A JS object viewed as a partial map from property names to values. -/
abbrev JsObj : Type := String → Option JsVal

/-- Property write target[k] = v. -/
def objSet (o : JsObj) (k : String) (v : JsVal) : JsObj :=
  fun q => if q = k then some v else o q

/-- Object.assign(target, src): every own enumerable key of src is copied
onto target, in source order, known or not. -/
def objAssign (o : JsObj) (src : List (String × JsVal)) : JsObj :=
  src.foldl (fun acc kv => objSet acc kv.1 kv.2) o

/-- The CONFIG literal of esmplus-core.js, viewed as a JS object. -/
def CONFIG : JsObj := fun k =>
  if k = "THROTTLE_MS" then some (.num 0)
  else if k = "CONCURRENCY" then some (.num 6)
  else if k = "USE_BATCH" then some (.bool false)
  else if k = "TIMEOUT_MS" then some (.num 10000)
  else if k = "MAX_RETRY" then some (.num 4)
  else none

/-- setConfig(c) performs Object.assign(CONFIG, c); the mutable singleton is
passed explicitly. -/
def setConfig (cfg : JsObj) (c : List (String × JsVal)) : JsObj := objAssign cfg c

/-- getConfig() returns a shallow copy snapshot of CONFIG. -/
def getConfig (cfg : JsObj) : JsObj := fun k => cfg k

/-- Typed view of CONFIG's five declared fields, the ones read by postJSON
and runWithConcurrency. -/
structure Config where
  THROTTLE_MS : Int
  CONCURRENCY : Int
  USE_BATCH : Bool
  TIMEOUT_MS : Int
  MAX_RETRY : Int
deriving DecidableEq

/-- The initial CONFIG field values. -/
def initialConfig : Config :=
  { THROTTLE_MS := 0, CONCURRENCY := 6, USE_BATCH := false,
    TIMEOUT_MS := 10000, MAX_RETRY := 4 }

/-! ## postJSON: the retrying request client -/

/-- A JS Error-like value: a name and a message. -/
structure JsError where
  name : String
  message : String
deriving DecidableEq

/-- String(e) for an Error-like value: "name: message", or just the name when
the message is empty. -/
def stringOfError (e : JsError) : String :=
  if e.message = "" then e.name else e.name ++ ": " ++ e.message

/-- Whether the first list is a prefix of the second (computable). -/
def prefixOf : List Char → List Char → Bool
  | [], _ => true
  | _, [] => false
  | p :: ps, c :: cs => p == c && prefixOf ps cs

/-- Whether the pattern occurs as a contiguous sublist (computable substring
search). -/
def containsList (pat : List Char) : List Char → Bool
  | [] => pat.isEmpty
  | c :: cs => prefixOf pat (c :: cs) || containsList pat cs

/-- Lower-case a string character by character. -/
def lowerStr (s : String) : String := ⟨s.data.map Char.toLower⟩

/-- The test performed by the regular expression /network|Failed to fetch/i
on a string. -/
def netRegexTest (s : String) : Bool :=
  containsList "network".data (lowerStr s).data ||
    containsList "failed to fetch".data (lowerStr s).data

/-- The retriable test of postJSON's catch block:
(e.name === 'AbortError') || /network|Failed to fetch/i.test(String(e)). -/
def retriable (e : JsError) : Bool :=
  e.name == "AbortError" || netRegexTest (stringOfError e)

/-- The HTTP-status retry condition: status === 429 || (status >= 500 && status < 600). -/
def retryableStatus (status : Int) : Bool :=
  status == 429 || (decide (500 ≤ status) && decide (status < 600))

/-- Outcome of one fetch attempt, supplied by the environment since the
transport is external: a success body, a non-ok response with status and
body text, or a thrown exception (AbortError from the timeout guard, or a
connectivity failure). -/
inductive FetchOutcome (β : Type) where
  | success (body : β)
  | httpError (status : Int) (text : String)
  | exn (name : String) (msg : String)

/-- The fallback body text of the thrown HTTP error. -/
def defaultFailText : String := "요청 실패"

/-- The message of the error thrown on a non-retried HTTP status:
`HTTP ${status}: ${text || '요청 실패'}`. -/
def httpErrorMessage (status : Int) (text : String) : String :=
  "HTTP " ++ toString status ++ ": " ++ (if text = "" then defaultFailText else text)

/-- Observable outcome of a postJSON call: the resolution (parsed body,
undefined on loop fall-through, or a thrown error), the number of fetch
attempts issued, and the backoff sleeps performed between attempts. -/
structure PostResult (β : Type) where
  result : Except JsError (Option β)
  attempts : Nat
  sleeps : List Int
deriving DecidableEq

/-- The attempt loop of postJSON. `attempt` is the JS loop counter; the fuel
is the number of loop iterations left, maintained as (maxRetry - attempt + 1).
Fuel 0 is the loop exiting without returning: the async function resolves
with undefined. A non-ok response throws `HTTP status: text` inside the try,
so that error goes through the same catch as a transport exception. -/
def postLoop {β : Type} (maxRetry : Int) (oc : Int → FetchOutcome β) :
    Int → Nat → PostResult β
  | _, 0 => { result := .ok none, attempts := 0, sleeps := [] }
  | attempt, f + 1 =>
    match oc attempt with
    | .success b => { result := .ok (some b), attempts := 1, sleeps := [] }
    | .httpError status text =>
      if retryableStatus status ∧ attempt < maxRetry then
        let rest := postLoop maxRetry oc (attempt + 1) f
        { result := rest.result, attempts := rest.attempts + 1,
          sleeps := min 2000 (200 * 2 ^ (attempt - 1).toNat) :: rest.sleeps }
      else
        let e : JsError := { name := "Error", message := httpErrorMessage status text }
        if retriable e ∧ attempt < maxRetry then
          let rest := postLoop maxRetry oc (attempt + 1) f
          { result := rest.result, attempts := rest.attempts + 1,
            sleeps := 300 * attempt :: rest.sleeps }
        else { result := .error e, attempts := 1, sleeps := [] }
    | .exn name msg =>
      let e : JsError := { name := name, message := msg }
      if retriable e ∧ attempt < maxRetry then
        let rest := postLoop maxRetry oc (attempt + 1) f
        { result := rest.result, attempts := rest.attempts + 1,
          sleeps := 300 * attempt :: rest.sleeps }
      else { result := .error e, attempts := 1, sleeps := [] }

/-- postJSON: reads TIMEOUT_MS and MAX_RETRY once from the configuration at
call start, then runs the attempt loop from attempt 1. The per-attempt
outcomes (including the timeout guard firing as an AbortError) come from the
environment `oc`. -/
def postJSON {β : Type} (cfg : Config) (oc : Int → FetchOutcome β) : PostResult β :=
  postLoop cfg.MAX_RETRY oc 1 cfg.MAX_RETRY.toNat

/-! ## runWithConcurrency: the bounded worker pool

Each worker is an async closure looping: claim the shared cursor (atomic, no
suspension point inside `const cur = i++; if (cur >= tasks.length) break;`),
await the claimed task, write its result, optionally throttle-sleep, repeat.
A schedule is an explicit list of events: which worker takes its next
atomic step, or a setConfig mutation of THROTTLE_MS landing between
suspension points. Task outcomes are fixed per index, as operations are
identified solely by position. -/

/-- Phase of one worker between suspension points. -/
inductive WorkerPhase (ε : Type) where
  | claiming
  | running (cur : Nat)
  | done
  | failed (cur : Nat) (e : ε)
deriving DecidableEq

/-- Scheduler state: the shared cursor `i`, the results array (none = hole),
the workers, the time-ordered list of worker rejections (Promise.all rejects
with the first), the live CONFIG.THROTTLE_MS, and the observed
throttle sleeps (worker, duration). -/
structure SchedState (ε α : Type) where
  cursor : Nat
  results : List (Option α)
  workers : List (WorkerPhase ε)
  failures : List ε
  throttle : Int
  sleepTrace : List (Nat × Int)
deriving DecidableEq

/-- A schedule event: one atomic step of worker w, or a mid-run
setConfig({THROTTLE_MS: t}) landing at a suspension point. -/
inductive Ev where
  | work (w : Nat)
  | setThrottle (t : Int)
deriving DecidableEq

/-- One small step. A claiming worker atomically runs
`const cur = i++; if (cur >= tasks.length) break;` — terminating or moving
to running cur. A running worker's awaited task settles: on success the
result is written to slot cur and CONFIG.THROTTLE_MS is read live to decide
the throttle sleep; on rejection the worker's promise rejects. Settled
workers do not step. -/
def step {ε α : Type} (tasks : List (Except ε α)) (s : SchedState ε α) (ev : Ev) :
    SchedState ε α :=
  match ev with
  | .setThrottle t => { s with throttle := t }
  | .work w =>
    match s.workers.get? w with
    | some .claiming =>
      let cur := s.cursor
      if tasks.length ≤ cur then
        { s with cursor := cur + 1, workers := s.workers.set w .done }
      else
        { s with cursor := cur + 1, workers := s.workers.set w (.running cur) }
    | some (.running cur) =>
      match tasks.get? cur with
      | some (.ok a) =>
        { s with results := s.results.set cur (some a),
                 workers := s.workers.set w .claiming,
                 sleepTrace :=
                   if 0 < s.throttle then s.sleepTrace ++ [(w, s.throttle)]
                   else s.sleepTrace }
      | some (.error e) =>
        { s with workers := s.workers.set w (.failed cur e),
                 failures := s.failures ++ [e] }
      | none => s
    | _ => s

/-- The worker-pool size computed at batch start:
Math.min(Math.max(1, limit ?? CONFIG.CONCURRENCY), tasks.length). -/
def effectiveSize {ε α : Type} (cfg : Config) (tasks : List (Except ε α))
    (limit : Option Int) : Int :=
  min (max 1 (limit.getD cfg.CONCURRENCY)) (tasks.length : Int)

/-- How many workers Array.from spawns: zero on the empty-batch early return,
otherwise the effective size. -/
def spawnedWorkers {ε α : Type} (cfg : Config) (tasks : List (Except ε α))
    (limit : Option Int) : Nat :=
  if tasks.length = 0 then 0 else (effectiveSize cfg tasks limit).toNat

/-- State at batch start: cursor 0, a fresh hole-filled results array of the
batch length, `size` workers about to claim, and the live throttle. -/
def initState {ε α : Type} (cfg : Config) (tasks : List (Except ε α)) (size : Nat) :
    SchedState ε α :=
  { cursor := 0, results := List.replicate tasks.length none,
    workers := List.replicate size .claiming, failures := [],
    throttle := cfg.THROTTLE_MS, sleepTrace := [] }

/-- runWithConcurrency(tasks, limit) driven by the schedule `evs`: an empty
batch returns [] immediately (no worker spawned, no event consumed);
otherwise the workers interleave as scheduled. -/
def runWithConcurrency {ε α : Type} (cfg : Config) (tasks : List (Except ε α))
    (limit : Option Int) (evs : List Ev) : SchedState ε α :=
  if tasks.length = 0 then initState cfg tasks 0
  else evs.foldl (step tasks) (initState cfg tasks (spawnedWorkers cfg tasks limit))

/-- Whether a worker promise has settled. -/
def settled {ε : Type} : WorkerPhase ε → Bool
  | .done => true
  | .failed _ _ => true
  | _ => false

/-- Whether every worker promise has settled (Promise.all has a value). -/
def allSettled {ε α : Type} (s : SchedState ε α) : Bool := s.workers.all settled

/-- The value of `await Promise.all(workers)` followed by `return results`:
rejects with the first worker rejection, otherwise resolves with the results
array. -/
def joinResult {ε α : Type} (s : SchedState ε α) : Except ε (List (Option α)) :=
  match s.failures with
  | [] => .ok s.results
  | e :: _ => .error e

/-- Whether an event is a worker step (as opposed to a config mutation). -/
def isWork : Ev → Bool
  | .work _ => true
  | .setThrottle _ => false

/-- The scheduling core of a state: everything except the live throttle and
the sleep trace. -/
def schedCore {ε α : Type} (s : SchedState ε α) :
    Nat × List (Option α) × List (WorkerPhase ε) × List ε :=
  (s.cursor, s.results, s.workers, s.failures)

/-- Spec-side definition, following the specification's words: clamp(x, lo, hi). -/
def clampSpec (x lo hi : Int) : Int := min hi (max lo x)

/-- The phase of worker w (settled if the index is out of range). -/
def workerPhaseAt {ε α : Type} (s : SchedState ε α) (w : Nat) : WorkerPhase ε :=
  (s.workers.get? w).getD .done

/-- Termination weight of a phase. -/
def phaseWeight {ε : Type} : WorkerPhase ε → Nat
  | .claiming => 1
  | .running _ => 2
  | .done => 0
  | .failed _ _ => 0

/-- Termination measure of worker w: strictly decreases at every step the
worker takes before settling. -/
def workerMeasure {ε α : Type} (n : Nat) (s : SchedState ε α) (w : Nat) : Nat :=
  2 * (n + 1 - s.cursor) + phaseWeight (workerPhaseAt s w)

/-- A schedule that lets every worker run to completion: each worker in turn
takes enough steps to settle. -/
def drainEvs (size n : Nat) : List Ev :=
  (List.range size).bind (fun w => List.replicate (2 * n + 4) (Ev.work w))


/-- The scheduler invariant, relative to the fixed batch and the spawned
worker count: results array length is the batch length; written slots hold
their task's success value; running claims are in range, below the cursor,
unique, and target unwritten slots; slots at or beyond the cursor are
unwritten; failed workers fail on an error task already recorded in the
failures list; every claimed index is written, being run, or failed; a done
worker means the cursor has passed the batch; every recorded failure is a
task error. -/
structure SchedInv {ε α : Type} (tasks : List (Except ε α)) (size : Nat)
    (s : SchedState ε α) : Prop where
  hres : s.results.length = tasks.length
  hw : s.workers.length = size
  hcorrect : ∀ j v, s.results.get? j = some (some v) → tasks.get? j = some (.ok v)
  hrun_lt : ∀ w j, s.workers.get? w = some (.running j) → j < tasks.length ∧ j < s.cursor
  huniq : ∀ w1 w2 j, s.workers.get? w1 = some (.running j) →
    s.workers.get? w2 = some (.running j) → w1 = w2
  hunclaimed : ∀ j, s.cursor ≤ j → j < tasks.length → s.results.get? j = some none
  hrunslot : ∀ w j, s.workers.get? w = some (.running j) → s.results.get? j = some none
  hfail : ∀ w j e, s.workers.get? w = some (.failed j e) →
    Except.error e ∈ tasks ∧ e ∈ s.failures
  hacc : ∀ j, j < s.cursor → j < tasks.length →
    (∃ v, s.results.get? j = some (some v)) ∨
      (∃ w, s.workers.get? w = some (.running j)) ∨
      (∃ w e, s.workers.get? w = some (.failed j e))
  hdone : ∀ w, s.workers.get? w = some .done → tasks.length ≤ s.cursor
  hfailures : ∀ e ∈ s.failures, Except.error e ∈ tasks

/-! ## List helper lemmas -/

theorem lget_set_eq {A : Type} (l : List A) (i : Nat) (a : A) (h : i < l.length) :
    (l.set i a).get? i = some a := by
  simp [List.get?_eq_getElem?, List.getElem?_set_eq_of_lt a h]

theorem lget_set_ne {A : Type} (l : List A) {i j : Nat} (a : A) (h : i ≠ j) :
    (l.set i a).get? j = l.get? j := by
  simp [List.get?_eq_getElem?, List.getElem?_set_ne h]

theorem lget_replicate {A : Type} (n i : Nat) (a : A) (h : i < n) :
    (List.replicate n a).get? i = some a := by
  simp [List.get?_eq_getElem?, List.getElem?_replicate, h]

theorem lget_lt_length {A : Type} {l : List A} {i : Nat} {a : A}
    (h : l.get? i = some a) : i < l.length := by
  by_contra hc
  rw [List.get?_eq_none.2 (by omega)] at h
  cases h

theorem lget_set_cases {A : Type} {l : List A} {i j : Nat} {a b : A}
    (h : (l.set i a).get? j = some b) : (i = j ∧ a = b) ∨ (i ≠ j ∧ l.get? j = some b) := by
  by_cases hij : i = j
  · subst hij
    by_cases hl : i < l.length
    · rw [lget_set_eq _ _ _ hl] at h
      exact Or.inl ⟨rfl, (Option.some.inj h)⟩
    · have hlen : (l.set i a).length = l.length := by simp
      rw [List.get?_eq_none.2 (by omega)] at h
      cases h
  · exact Or.inr ⟨hij, by rwa [lget_set_ne _ _ hij] at h⟩

/-! ## postJSON lemmas -/

theorem postLoop_http_all {β : Type} (maxRetry : Int) (oc : Int → FetchOutcome β)
    (st : Int → Int) (tx : Int → String) :
    ∀ (f : Nat) (attempt : Int), 1 ≤ attempt → attempt ≤ maxRetry →
    attempt + f = maxRetry + 1 →
    (∀ k, attempt ≤ k → k ≤ maxRetry → oc k = .httpError (st k) (tx k)) →
    (∀ k, attempt ≤ k → k ≤ maxRetry → retryableStatus (st k) = true) →
    postLoop maxRetry oc attempt f =
      ⟨.error ⟨"Error", httpErrorMessage (st maxRetry) (tx maxRetry)⟩, f,
        (List.range (f - 1)).map
          (fun j => min 2000 (200 * 2 ^ ((attempt - 1).toNat + j)))⟩ := by
  intro f
  induction f with
  | zero => intro attempt h1 h2 h3 _ _; omega
  | succ f ih =>
    intro attempt h1 h2 h3 hoc hre
    have hocEq := hoc attempt le_rfl h2
    by_cases hlast : attempt < maxRetry
    · have hf : 1 ≤ f := by omega
      have hrest := ih (attempt + 1) (by omega) (by omega) (by omega)
        (fun k hk1 hk2 => hoc k (by omega) hk2)
        (fun k hk1 hk2 => hre k (by omega) hk2)
      have hcond : retryableStatus (st attempt) = true ∧ attempt < maxRetry :=
        ⟨hre attempt le_rfl h2, hlast⟩
      simp only [postLoop, hocEq, if_pos hcond, hrest, PostResult.mk.injEq]
      refine ⟨by trivial, by trivial, ?_⟩
      rw [show f + 1 - 1 = (f - 1) + 1 by omega, List.range_succ_eq_map, List.map_cons,
        List.map_map]
      simp only [List.cons.injEq]
      refine ⟨by simp, ?_⟩
      refine List.map_congr_left (fun j _ => ?_)
      simp only [Function.comp_apply]
      congr 3
      omega
    · have hattempt : attempt = maxRetry := by omega
      have hfz : f = 0 := by omega
      subst hfz
      subst hattempt
      have hcond : ¬ (retryableStatus (st attempt) = true ∧ attempt < attempt) :=
        fun h => absurd h.2 (lt_irrefl _)
      have hcond2 : ¬ (retriable ⟨"Error", httpErrorMessage (st attempt) (tx attempt)⟩ = true ∧
          attempt < attempt) := fun h => absurd h.2 (lt_irrefl _)
      simp only [postLoop, hocEq, if_neg hcond, if_neg hcond2]
      simp

theorem postLoop_exn_all {β : Type} (maxRetry : Int) (oc : Int → FetchOutcome β)
    (nm : Int → String) (ms : Int → String) :
    ∀ (f : Nat) (attempt : Int), 1 ≤ attempt → attempt ≤ maxRetry →
    attempt + f = maxRetry + 1 →
    (∀ k, attempt ≤ k → k ≤ maxRetry → oc k = .exn (nm k) (ms k)) →
    (∀ k, attempt ≤ k → k ≤ maxRetry → retriable ⟨nm k, ms k⟩ = true) →
    postLoop maxRetry oc attempt f =
      ⟨.error ⟨nm maxRetry, ms maxRetry⟩, f,
        (List.range (f - 1)).map (fun j : Nat => 300 * (attempt + (j : Int)))⟩ := by
  intro f
  induction f with
  | zero => intro attempt h1 h2 h3 _ _; omega
  | succ f ih =>
    intro attempt h1 h2 h3 hoc hre
    have hocEq := hoc attempt le_rfl h2
    by_cases hlast : attempt < maxRetry
    · have hf : 1 ≤ f := by omega
      have hrest := ih (attempt + 1) (by omega) (by omega) (by omega)
        (fun k hk1 hk2 => hoc k (by omega) hk2)
        (fun k hk1 hk2 => hre k (by omega) hk2)
      have hcond : retriable ⟨nm attempt, ms attempt⟩ = true ∧ attempt < maxRetry :=
        ⟨hre attempt le_rfl h2, hlast⟩
      simp only [postLoop, hocEq, if_pos hcond, hrest, PostResult.mk.injEq]
      refine ⟨by trivial, by trivial, ?_⟩
      rw [show f + 1 - 1 = (f - 1) + 1 by omega, List.range_succ_eq_map, List.map_cons,
        List.map_map]
      simp only [List.cons.injEq]
      refine ⟨by simp, ?_⟩
      refine List.map_congr_left (fun j _ => ?_)
      simp only [Function.comp_apply]
      push_cast
      ring
    · have hattempt : attempt = maxRetry := by omega
      have hfz : f = 0 := by omega
      subst hfz
      subst hattempt
      have hcond : ¬ (retriable ⟨nm attempt, ms attempt⟩ = true ∧ attempt < attempt) :=
        fun h => absurd h.2 (lt_irrefl _)
      simp only [postLoop, hocEq, if_neg hcond]
      simp

theorem postLoop_result_ne_none {β : Type} (maxRetry : Int) (oc : Int → FetchOutcome β) :
    ∀ (f : Nat) (attempt : Int), 1 ≤ f → attempt + f = maxRetry + 1 →
    (postLoop maxRetry oc attempt f).result ≠ .ok none := by
  intro f
  induction f with
  | zero => intro attempt h1 _; omega
  | succ f ih =>
    intro attempt _ h2
    cases hoc : oc attempt with
    | success b => simp [postLoop, hoc]
    | httpError status text =>
      simp only [postLoop, hoc]
      by_cases hc1 : retryableStatus status = true ∧ attempt < maxRetry
      · rw [if_pos hc1]
        exact ih (attempt + 1) (by omega) (by omega)
      · rw [if_neg hc1]
        by_cases hc2 : retriable ⟨"Error", httpErrorMessage status text⟩ = true ∧
            attempt < maxRetry
        · rw [if_pos hc2]
          exact ih (attempt + 1) (by omega) (by omega)
        · rw [if_neg hc2]
          simp
    | exn name msg =>
      simp only [postLoop, hoc]
      by_cases hc : retriable ⟨name, msg⟩ = true ∧ attempt < maxRetry
      · rw [if_pos hc]
        exact ih (attempt + 1) (by omega) (by omega)
      · rw [if_neg hc]
        simp

/-! ## Scheduler invariant lemmas -/

theorem lget_replicate_elem {A : Type} {n i : Nat} {a b : A}
    (h : (List.replicate n a).get? i = some b) : b = a ∧ i < n := by
  by_cases hi : i < n
  · rw [lget_replicate n i a hi] at h
    exact ⟨(Option.some.inj h).symm, hi⟩
  · rw [List.get?_eq_none.2 (by simp; omega)] at h
    cases h

theorem initState_inv {ε α : Type} (cfg : Config) (tasks : List (Except ε α)) (size : Nat) :
    SchedInv tasks size (initState cfg tasks size) := by
  refine ⟨by simp [initState], by simp [initState], ?_, ?_, ?_, ?_, ?_, ?_, ?_, ?_, ?_⟩
  · intro j v h
    obtain ⟨hv, _⟩ := lget_replicate_elem h
    cases hv
  · intro w j h
    obtain ⟨hv, _⟩ := lget_replicate_elem h
    cases hv
  · intro w1 w2 j h1 h2
    obtain ⟨hv, _⟩ := lget_replicate_elem h1
    cases hv
  · intro j _ hj
    exact lget_replicate _ _ _ hj
  · intro w j h
    obtain ⟨hv, _⟩ := lget_replicate_elem h
    cases hv
  · intro w j e h
    obtain ⟨hv, _⟩ := lget_replicate_elem h
    cases hv
  · intro j hj _
    exact absurd hj (by simp [initState])
  · intro w h
    obtain ⟨hv, _⟩ := lget_replicate_elem h
    cases hv
  · intro e he
    exact absurd he (by simp [initState])


theorem step_inv {ε α : Type} {tasks : List (Except ε α)} {size : Nat}
    {s : SchedState ε α} (H : SchedInv tasks size s) (ev : Ev) :
    SchedInv tasks size (step tasks s ev) := by
  obtain ⟨hres, hw, hcorrect, hrun_lt, huniq, hunclaimed, hrunslot, hfail, hacc, hdone,
    hfailures⟩ := H
  cases ev with
  | setThrottle t =>
    exact ⟨hres, hw, hcorrect, hrun_lt, huniq, hunclaimed, hrunslot, hfail, hacc, hdone,
      hfailures⟩
  | work w =>
    cases hph : s.workers.get? w with
    | none =>
      simp only [step, hph]
      exact ⟨hres, hw, hcorrect, hrun_lt, huniq, hunclaimed, hrunslot, hfail, hacc, hdone,
        hfailures⟩
    | some ph =>
      have hwlen : w < s.workers.length := lget_lt_length hph
      cases ph with
      | done =>
        simp only [step, hph]
        exact ⟨hres, hw, hcorrect, hrun_lt, huniq, hunclaimed, hrunslot, hfail, hacc, hdone,
          hfailures⟩
      | failed cur e =>
        simp only [step, hph]
        exact ⟨hres, hw, hcorrect, hrun_lt, huniq, hunclaimed, hrunslot, hfail, hacc, hdone,
          hfailures⟩
      | claiming =>
        by_cases hcur : tasks.length ≤ s.cursor
        · simp only [step, hph, if_pos hcur]
          refine ⟨hres, by simp [hw], hcorrect, ?_, ?_, ?_, ?_, ?_, ?_, ?_, hfailures⟩
          · intro w' j h
            rcases lget_set_cases h with ⟨rfl, heq⟩ | ⟨hne, hold⟩
            · cases heq
            · obtain ⟨h1, h2⟩ := hrun_lt w' j hold
              exact ⟨h1, show j < s.cursor + 1 by omega⟩
          · intro w1 w2 j h1 h2
            rcases lget_set_cases h1 with ⟨rfl, heq⟩ | ⟨hne1, hold1⟩
            · cases heq
            · rcases lget_set_cases h2 with ⟨rfl, heq⟩ | ⟨hne2, hold2⟩
              · cases heq
              · exact huniq w1 w2 j hold1 hold2
          · intro j hj hjn
            have hj' : s.cursor + 1 ≤ j := hj
            exact hunclaimed j (by omega) hjn
          · intro w' j h
            rcases lget_set_cases h with ⟨rfl, heq⟩ | ⟨hne, hold⟩
            · cases heq
            · exact hrunslot w' j hold
          · intro w' j e h
            rcases lget_set_cases h with ⟨rfl, heq⟩ | ⟨hne, hold⟩
            · cases heq
            · exact hfail w' j e hold
          · intro j hj hjn
            have hj' : j < s.cursor + 1 := hj
            rcases hacc j (by omega) hjn with hwr | ⟨w1, hw1⟩ | ⟨w1, e1, hw1⟩
            · exact Or.inl hwr
            · have hne : w ≠ w1 := by
                intro hEq
                rw [hEq] at hph
                rw [hph] at hw1
                cases hw1
              exact Or.inr (Or.inl ⟨w1, (lget_set_ne _ _ hne).trans hw1⟩)
            · have hne : w ≠ w1 := by
                intro hEq
                rw [hEq] at hph
                rw [hph] at hw1
                cases hw1
              exact Or.inr (Or.inr ⟨w1, e1, (lget_set_ne _ _ hne).trans hw1⟩)
          · intro w' h
            rcases lget_set_cases h with ⟨rfl, heq⟩ | ⟨hne, hold⟩
            · exact show tasks.length ≤ s.cursor + 1 by omega
            · have := hdone w' hold
              exact show tasks.length ≤ s.cursor + 1 by omega
        · simp only [step, hph, if_neg hcur]
          refine ⟨hres, by simp [hw], hcorrect, ?_, ?_, ?_, ?_, ?_, ?_, ?_, hfailures⟩
          · intro w' j h
            rcases lget_set_cases h with ⟨rfl, heq⟩ | ⟨hne, hold⟩
            · cases heq
              exact ⟨by omega, show s.cursor < s.cursor + 1 by omega⟩
            · obtain ⟨h1, h2⟩ := hrun_lt w' j hold
              exact ⟨h1, show j < s.cursor + 1 by omega⟩
          · intro w1 w2 j h1 h2
            rcases lget_set_cases h1 with ⟨rfl, heq1⟩ | ⟨hne1, hold1⟩
            · rcases lget_set_cases h2 with ⟨rfl, _⟩ | ⟨hne2, hold2⟩
              · rfl
              · cases heq1
                obtain ⟨_, hlt⟩ := hrun_lt w2 s.cursor hold2
                omega
            · rcases lget_set_cases h2 with ⟨rfl, heq2⟩ | ⟨hne2, hold2⟩
              · cases heq2
                obtain ⟨_, hlt⟩ := hrun_lt w1 s.cursor hold1
                omega
              · exact huniq w1 w2 j hold1 hold2
          · intro j hj hjn
            have hj' : s.cursor + 1 ≤ j := hj
            exact hunclaimed j (by omega) hjn
          · intro w' j h
            rcases lget_set_cases h with ⟨rfl, heq⟩ | ⟨hne, hold⟩
            · cases heq
              exact hunclaimed s.cursor le_rfl (by omega)
            · exact hrunslot w' j hold
          · intro w' j e h
            rcases lget_set_cases h with ⟨rfl, heq⟩ | ⟨hne, hold⟩
            · cases heq
            · exact hfail w' j e hold
          · intro j hj hjn
            have hj' : j < s.cursor + 1 := hj
            by_cases hjc : j = s.cursor
            · subst hjc
              exact Or.inr (Or.inl ⟨w, lget_set_eq _ _ _ hwlen⟩)
            · rcases hacc j (by omega) hjn with hwr | ⟨w1, hw1⟩ | ⟨w1, e1, hw1⟩
              · exact Or.inl hwr
              · have hne : w ≠ w1 := by
                  intro hEq
                  rw [hEq] at hph
                  rw [hph] at hw1
                  cases hw1
                exact Or.inr (Or.inl ⟨w1, (lget_set_ne _ _ hne).trans hw1⟩)
              · have hne : w ≠ w1 := by
                  intro hEq
                  rw [hEq] at hph
                  rw [hph] at hw1
                  cases hw1
                exact Or.inr (Or.inr ⟨w1, e1, (lget_set_ne _ _ hne).trans hw1⟩)
          · intro w' h
            rcases lget_set_cases h with ⟨rfl, heq⟩ | ⟨hne, hold⟩
            · cases heq
            · have := hdone w' hold
              exact show tasks.length ≤ s.cursor + 1 by omega
      | running cur =>
        obtain ⟨hcn, hcc⟩ := hrun_lt w cur hph
        have hslot := hrunslot w cur hph
        have hcurlen : cur < s.results.length := by omega
        cases ht : tasks.get? cur with
        | none =>
          simp only [step, hph, ht]
          exact ⟨hres, hw, hcorrect, hrun_lt, huniq, hunclaimed, hrunslot, hfail, hacc,
            hdone, hfailures⟩
        | some t =>
          cases t with
          | ok a =>
            simp only [step, hph, ht]
            refine ⟨by simp [hres], by simp [hw], ?_, ?_, ?_, ?_, ?_, ?_, ?_, ?_, hfailures⟩
            · intro j v h
              rcases lget_set_cases h with ⟨rfl, heq⟩ | ⟨hne, hold⟩
              · cases heq
                exact ht
              · exact hcorrect j v hold
            · intro w' j h
              rcases lget_set_cases h with ⟨rfl, heq⟩ | ⟨hne, hold⟩
              · cases heq
              · exact hrun_lt w' j hold
            · intro w1 w2 j h1 h2
              rcases lget_set_cases h1 with ⟨rfl, heq⟩ | ⟨hne1, hold1⟩
              · cases heq
              · rcases lget_set_cases h2 with ⟨rfl, heq⟩ | ⟨hne2, hold2⟩
                · cases heq
                · exact huniq w1 w2 j hold1 hold2
            · intro j hj hjn
              have hj' : s.cursor ≤ j := hj
              exact (lget_set_ne _ _ (show cur ≠ j by omega)).trans (hunclaimed j hj' hjn)
            · intro w' j h
              rcases lget_set_cases h with ⟨rfl, heq⟩ | ⟨hne, hold⟩
              · cases heq
              · have hjc : j ≠ cur := by
                  intro hEq
                  subst hEq
                  exact hne (huniq w w' j hph hold)
                exact (lget_set_ne _ _ (fun hEq => hjc hEq.symm)).trans (hrunslot w' j hold)
            · intro w' j e h
              rcases lget_set_cases h with ⟨rfl, heq⟩ | ⟨hne, hold⟩
              · cases heq
              · exact hfail w' j e hold
            · intro j hj hjn
              have hj' : j < s.cursor := hj
              by_cases hjc : j = cur
              · subst hjc
                exact Or.inl ⟨a, lget_set_eq _ _ _ hcurlen⟩
              · rcases hacc j hj' hjn with ⟨v, hv⟩ | ⟨w1, hw1⟩ | ⟨w1, e1, hw1⟩
                · exact Or.inl ⟨v, (lget_set_ne _ _ (fun hEq => hjc hEq.symm)).trans hv⟩
                · have hne : w ≠ w1 := by
                    intro hEq
                    rw [hEq] at hph
                    rw [hph] at hw1
                    exact hjc (WorkerPhase.running.inj (Option.some.inj hw1)).symm
                  exact Or.inr (Or.inl ⟨w1, (lget_set_ne _ _ hne).trans hw1⟩)
                · have hne : w ≠ w1 := by
                    intro hEq
                    rw [hEq] at hph
                    rw [hph] at hw1
                    cases hw1
                  exact Or.inr (Or.inr ⟨w1, e1, (lget_set_ne _ _ hne).trans hw1⟩)
            · intro w' h
              rcases lget_set_cases h with ⟨rfl, heq⟩ | ⟨hne, hold⟩
              · cases heq
              · exact hdone w' hold
          | error e =>
            simp only [step, hph, ht]
            refine ⟨hres, by simp [hw], hcorrect, ?_, ?_, hunclaimed, ?_, ?_, ?_, ?_, ?_⟩
            · intro w' j h
              rcases lget_set_cases h with ⟨rfl, heq⟩ | ⟨hne, hold⟩
              · cases heq
              · exact hrun_lt w' j hold
            · intro w1 w2 j h1 h2
              rcases lget_set_cases h1 with ⟨rfl, heq⟩ | ⟨hne1, hold1⟩
              · cases heq
              · rcases lget_set_cases h2 with ⟨rfl, heq⟩ | ⟨hne2, hold2⟩
                · cases heq
                · exact huniq w1 w2 j hold1 hold2
            · intro w' j h
              rcases lget_set_cases h with ⟨rfl, heq⟩ | ⟨hne, hold⟩
              · cases heq
              · exact hrunslot w' j hold
            · intro w' j e' h
              rcases lget_set_cases h with ⟨rfl, heq⟩ | ⟨hne, hold⟩
              · cases heq
                exact ⟨List.get?_mem ht, by simp⟩
              · obtain ⟨h1, h2⟩ := hfail w' j e' hold
                exact ⟨h1, by simp [h2]⟩
            · intro j hj hjn
              have hj' : j < s.cursor := hj
              by_cases hjc : j = cur
              · subst hjc
                exact Or.inr (Or.inr ⟨w, e, lget_set_eq _ _ _ hwlen⟩)
              · rcases hacc j hj' hjn with hwr | ⟨w1, hw1⟩ | ⟨w1, e1, hw1⟩
                · exact Or.inl hwr
                · have hne : w ≠ w1 := by
                    intro hEq
                    rw [hEq] at hph
                    rw [hph] at hw1
                    exact hjc (WorkerPhase.running.inj (Option.some.inj hw1)).symm
                  exact Or.inr (Or.inl ⟨w1, (lget_set_ne _ _ hne).trans hw1⟩)
                · have hne : w ≠ w1 := by
                    intro hEq
                    rw [hEq] at hph
                    rw [hph] at hw1
                    cases hw1
                  exact Or.inr (Or.inr ⟨w1, e1, (lget_set_ne _ _ hne).trans hw1⟩)
            · intro w' h
              rcases lget_set_cases h with ⟨rfl, heq⟩ | ⟨hne, hold⟩
              · cases heq
              · exact hdone w' hold
            · intro e' he'
              rcases List.mem_append.1 he' with hm | hm
              · exact hfailures e' hm
              · rw [List.mem_singleton.1 hm]
                exact List.get?_mem ht

theorem foldl_inv {ε α : Type} {tasks : List (Except ε α)} {size : Nat} :
    ∀ (evs : List Ev) {s : SchedState ε α}, SchedInv tasks size s →
    SchedInv tasks size (evs.foldl (step tasks) s) := by
  intro evs
  induction evs with
  | nil => intro s H; exact H
  | cons ev evs ih => intro s H; exact ih (step_inv H ev)

theorem step_written {ε α : Type} {tasks : List (Except ε α)} {size : Nat}
    {s : SchedState ε α} (H : SchedInv tasks size s) (ev : Ev) {j : Nat} {v : α}
    (h : s.results.get? j = some (some v)) :
    (step tasks s ev).results.get? j = some (some v) := by
  cases ev with
  | setThrottle t => exact h
  | work w =>
    cases hph : s.workers.get? w with
    | none => simp only [step, hph]; exact h
    | some ph =>
      cases ph with
      | done => simp only [step, hph]; exact h
      | failed cur e => simp only [step, hph]; exact h
      | claiming =>
        by_cases hcur : tasks.length ≤ s.cursor
        · simp only [step, hph, if_pos hcur]; exact h
        · simp only [step, hph, if_neg hcur]; exact h
      | running cur =>
        have hslot := H.hrunslot w cur hph
        cases ht : tasks.get? cur with
        | none => simp only [step, hph, ht]; exact h
        | some t =>
          cases t with
          | error e => simp only [step, hph, ht]; exact h
          | ok a =>
            simp only [step, hph, ht]
            have hne : cur ≠ j := by
              intro hEq
              rw [hEq] at hslot
              rw [hslot] at h
              cases h
            exact (lget_set_ne _ _ hne).trans h

theorem foldl_written {ε α : Type} {tasks : List (Except ε α)} {size : Nat} :
    ∀ (evs : List Ev) {s : SchedState ε α}, SchedInv tasks size s →
    ∀ {j : Nat} {v : α}, s.results.get? j = some (some v) →
    (evs.foldl (step tasks) s).results.get? j = some (some v) := by
  intro evs
  induction evs with
  | nil => intro s _ j v h; exact h
  | cons ev evs ih =>
    intro s H j v h
    exact ih (step_inv H ev) (step_written H ev h)

theorem allSettled_spec {ε α : Type} {s : SchedState ε α} (h : allSettled s = true)
    {w : Nat} {p : WorkerPhase ε} (hp : s.workers.get? w = some p) : settled p = true :=
  List.all_eq_true.1 h p (List.get?_mem hp)

theorem settled_cases {ε : Type} {p : WorkerPhase ε} (h : settled p = true) :
    p = .done ∨ ∃ cur e, p = .failed cur e := by
  cases p with
  | done => exact Or.inl rfl
  | failed cur e => exact Or.inr ⟨cur, e, rfl⟩
  | claiming => cases h
  | running cur => cases h

theorem settled_not_running {ε α : Type} {s : SchedState ε α} (hset : allSettled s = true)
    {w j : Nat} (hp : s.workers.get? w = some (.running j)) : False := by
  cases allSettled_spec hset hp

theorem cursor_ge_of_settled {ε α : Type} {tasks : List (Except ε α)} {size : Nat}
    {s : SchedState ε α} (H : SchedInv tasks size s) (hset : allSettled s = true)
    (hnil : s.failures = []) (hsz : 0 < size) : tasks.length ≤ s.cursor := by
  have hw0 : 0 < s.workers.length := by rw [H.hw]; exact hsz
  have hp : s.workers.get? 0 = some (s.workers.get ⟨0, hw0⟩) := List.get?_eq_get hw0
  rcases settled_cases (allSettled_spec hset hp) with hd | ⟨cur, e, hf⟩
  · rw [hd] at hp
    exact H.hdone 0 hp
  · rw [hf] at hp
    have := (H.hfail 0 cur e hp).2
    rw [hnil] at this
    cases this

theorem written_of_settled {ε α : Type} {tasks : List (Except ε α)} {size : Nat}
    {s : SchedState ε α} (H : SchedInv tasks size s) (hset : allSettled s = true)
    (hnil : s.failures = []) (hsz : 0 < size) :
    ∀ j, j < tasks.length → ∃ v, s.results.get? j = some (some v) ∧
      tasks.get? j = some (.ok v) := by
  intro j hj
  have hc := cursor_ge_of_settled H hset hnil hsz
  rcases H.hacc j (by omega) hj with ⟨v, hv⟩ | ⟨w1, hw1⟩ | ⟨w1, e1, hw1⟩
  · exact ⟨v, hv, H.hcorrect j v hv⟩
  · exact absurd hw1 (fun hh => settled_not_running hset hh)
  · have := (H.hfail w1 j e1 hw1).2
    rw [hnil] at this
    cases this

theorem failures_ne_nil_of_error {ε α : Type} {tasks : List (Except ε α)} {size : Nat}
    {s : SchedState ε α} (H : SchedInv tasks size s) (hset : allSettled s = true)
    (hsz : 0 < size) {i : Nat} {e : ε} (hi : tasks.get? i = some (.error e)) :
    s.failures ≠ [] := by
  intro hnil
  obtain ⟨v, _, hok⟩ := written_of_settled H hset hnil hsz i (lget_lt_length hi)
  rw [hi] at hok
  cases hok

theorem settled_stable_step {ε α : Type} (tasks : List (Except ε α)) {s : SchedState ε α}
    (ev : Ev) {w : Nat} (h : settled (workerPhaseAt s w) = true) :
    settled (workerPhaseAt (step tasks s ev) w) = true := by
  cases ev with
  | setThrottle t => exact h
  | work w' =>
    cases hph : s.workers.get? w' with
    | none => simp only [step, hph]; exact h
    | some ph =>
      have hne : ∀ (x : WorkerPhase ε), settled ph = false → w' ≠ w →
          settled (workerPhaseAt { s with workers := s.workers.set w' x } w) = true := by
        intro x _ hnw
        show settled (((s.workers.set w' x).get? w).getD .done) = true
        rw [lget_set_ne _ _ hnw]
        exact h
      have hww : w' = w → settled ph = true := by
        intro hEq
        subst hEq
        unfold workerPhaseAt at h
        rw [hph] at h
        exact h
      cases ph with
      | done => simp only [step, hph]; exact h
      | failed cur e => simp only [step, hph]; exact h
      | claiming =>
        have hnw : w' ≠ w := by
          intro hEq
          have := hww hEq
          cases this
        by_cases hcur : tasks.length ≤ s.cursor
        · simp only [step, hph, if_pos hcur]
          exact hne _ rfl hnw
        · simp only [step, hph, if_neg hcur]
          exact hne _ rfl hnw
      | running cur =>
        have hnw : w' ≠ w := by
          intro hEq
          have := hww hEq
          cases this
        cases ht : tasks.get? cur with
        | none => simp only [step, hph, ht]; exact h
        | some t =>
          cases t with
          | ok a =>
            simp only [step, hph, ht]
            show settled (((s.workers.set w' .claiming).get? w).getD .done) = true
            rw [lget_set_ne _ _ hnw]
            exact h
          | error e =>
            simp only [step, hph, ht]
            show settled (((s.workers.set w' (.failed cur e)).get? w).getD .done) = true
            rw [lget_set_ne _ _ hnw]
            exact h

theorem settled_stable_foldl {ε α : Type} (tasks : List (Except ε α)) :
    ∀ (evs : List Ev) {s : SchedState ε α} {w : Nat},
    settled (workerPhaseAt s w) = true →
    settled (workerPhaseAt (evs.foldl (step tasks) s) w) = true := by
  intro evs
  induction evs with
  | nil => intro s w h; exact h
  | cons ev evs ih => intro s w h; exact ih (settled_stable_step tasks ev h)

theorem settles_in {ε α : Type} {tasks : List (Except ε α)} {size : Nat} :
    ∀ (k : Nat) {s : SchedState ε α}, SchedInv tasks size s → ∀ (w : Nat),
    workerMeasure tasks.length s w ≤ k →
    settled (workerPhaseAt ((List.replicate k (Ev.work w)).foldl (step tasks) s) w)
      = true := by
  intro k
  induction k with
  | zero =>
    intro s _ w hμ
    simp only [workerMeasure] at hμ
    cases hp : workerPhaseAt s w with
    | done => simp [settled, hp]
    | failed cur e => simp [settled, hp]
    | claiming => rw [hp] at hμ; simp [phaseWeight] at hμ
    | running cur => rw [hp] at hμ; simp [phaseWeight] at hμ
  | succ k ih =>
    intro s H w hμ
    by_cases hs : settled (workerPhaseAt s w) = true
    · rw [List.replicate_succ, List.foldl_cons]
      exact settled_stable_foldl tasks _ (settled_stable_step tasks _ hs)
    · cases hph : s.workers.get? w with
      | none =>
        exact absurd (by unfold workerPhaseAt; rw [hph]; rfl) hs
      | some ph =>
        have hwlen : w < s.workers.length := lget_lt_length hph
        have hμ0 : workerMeasure tasks.length s w
            = 2 * (tasks.length + 1 - s.cursor) + phaseWeight ph := by
          simp only [workerMeasure, workerPhaseAt, hph]
          rfl
        cases ph with
        | done => exact absurd (by unfold workerPhaseAt; rw [hph]; rfl) hs
        | failed cur e => exact absurd (by unfold workerPhaseAt; rw [hph]; rfl) hs
        | claiming =>
          by_cases hcur : tasks.length ≤ s.cursor
          · rw [List.replicate_succ, List.foldl_cons]
            apply settled_stable_foldl
            simp only [step, hph, if_pos hcur, workerPhaseAt]
            rw [lget_set_eq _ _ _ hwlen]
            rfl
          · rw [List.replicate_succ, List.foldl_cons]
            have hμ1 : workerMeasure tasks.length (step tasks s (Ev.work w)) w
                = 2 * (tasks.length + 1 - (s.cursor + 1)) + 2 := by
              simp only [step, hph, if_neg hcur, workerMeasure, workerPhaseAt]
              rw [lget_set_eq _ _ _ hwlen]
              rfl
            apply ih (step_inv H (Ev.work w)) w
            rw [hμ1]
            simp only [phaseWeight] at hμ0
            omega
        | running cur =>
          obtain ⟨hcn, hcc⟩ := H.hrun_lt w cur hph
          obtain ⟨t, ht⟩ : ∃ t, tasks.get? cur = some t :=
            ⟨_, List.get?_eq_get hcn⟩
          cases t with
          | error e =>
            rw [List.replicate_succ, List.foldl_cons]
            apply settled_stable_foldl
            simp only [step, hph, ht, workerPhaseAt]
            rw [lget_set_eq _ _ _ hwlen]
            rfl
          | ok a =>
            rw [List.replicate_succ, List.foldl_cons]
            have hμ1 : workerMeasure tasks.length (step tasks s (Ev.work w)) w
                = 2 * (tasks.length + 1 - s.cursor) + 1 := by
              simp only [step, hph, ht, workerMeasure, workerPhaseAt]
              rw [lget_set_eq _ _ _ hwlen]
              rfl
            apply ih (step_inv H (Ev.work w)) w
            rw [hμ1]
            simp only [phaseWeight] at hμ0
            omega

theorem workerMeasure_le {ε α : Type} (n : Nat) (s : SchedState ε α) (w : Nat) :
    workerMeasure n s w ≤ 2 * n + 4 := by
  have hp : phaseWeight (workerPhaseAt s w) ≤ 2 := by
    cases workerPhaseAt s w <;> simp [phaseWeight]
  simp only [workerMeasure]
  omega

theorem drain_bind {ε α : Type} {tasks : List (Except ε α)} {size : Nat} :
    ∀ (ws : List Nat) {s : SchedState ε α}, SchedInv tasks size s →
    ∀ (w : Nat), (w ∈ ws ∨ settled (workerPhaseAt s w) = true) →
    settled (workerPhaseAt
      ((ws.bind (fun u => List.replicate (2 * tasks.length + 4) (Ev.work u))).foldl
        (step tasks) s) w) = true := by
  intro ws
  induction ws with
  | nil =>
    intro s _ w hw
    rcases hw with hw | hw
    · cases hw
    · exact hw
  | cons u ws ih =>
    intro s H w hw
    rw [show (u :: ws).bind (fun v => List.replicate (2 * tasks.length + 4) (Ev.work v))
        = List.replicate (2 * tasks.length + 4) (Ev.work u)
          ++ ws.bind (fun v => List.replicate (2 * tasks.length + 4) (Ev.work v)) from rfl,
      List.foldl_append]
    have H1 : SchedInv tasks size
        ((List.replicate (2 * tasks.length + 4) (Ev.work u)).foldl (step tasks) s) :=
      foldl_inv _ H
    rcases hw with hw | hw
    · rcases List.mem_cons.1 hw with rfl | hmem
      · refine ih H1 w (Or.inr ?_)
        exact settles_in _ H w (workerMeasure_le _ _ _)
      · exact ih H1 w (Or.inl hmem)
    · refine ih H1 w (Or.inr ?_)
      exact settled_stable_foldl tasks _ hw

theorem drain_allSettled {ε α : Type} {tasks : List (Except ε α)} {size : Nat}
    {s : SchedState ε α} (H : SchedInv tasks size s) :
    allSettled ((drainEvs size tasks.length).foldl (step tasks) s) = true := by
  have Hf : SchedInv tasks size ((drainEvs size tasks.length).foldl (step tasks) s) :=
    foldl_inv _ H
  apply List.all_eq_true.2
  intro p hp
  obtain ⟨w, hwp⟩ := List.mem_iff_get?.1 hp
  have hwlt : w < size := by
    have := lget_lt_length hwp
    rw [Hf.hw] at this
    exact this
  have hsettled := drain_bind (List.range size) H w (Or.inl (List.mem_range.2 hwlt))
  unfold workerPhaseAt at hsettled
  rw [show (List.range size).bind
      (fun u => List.replicate (2 * tasks.length + 4) (Ev.work u)) = drainEvs size tasks.length
    from rfl] at hsettled
  rw [hwp] at hsettled
  exact hsettled

theorem schedCore_step_setThrottle {ε α : Type} (tasks : List (Except ε α))
    (s : SchedState ε α) (t : Int) :
    schedCore (step tasks s (.setThrottle t)) = schedCore s := rfl

theorem schedCore_step_work {ε α : Type} (tasks : List (Except ε α))
    {s1 s2 : SchedState ε α} (h : schedCore s1 = schedCore s2) (w : Nat) :
    schedCore (step tasks s1 (.work w)) = schedCore (step tasks s2 (.work w)) := by
  have h1 : s1.cursor = s2.cursor := congrArg (fun c => c.1) h
  have h2 : s1.results = s2.results := congrArg (fun c => c.2.1) h
  have h3 : s1.workers = s2.workers := congrArg (fun c => c.2.2.1) h
  have h4 : s1.failures = s2.failures := congrArg (fun c => c.2.2.2) h
  cases hph : s1.workers.get? w with
  | none =>
    have hph2 : s2.workers.get? w = none := by rw [← h3]; exact hph
    simp only [step, hph, hph2]
    exact h
  | some ph =>
    have hph2 : s2.workers.get? w = some ph := by rw [← h3]; exact hph
    cases ph with
    | done =>
      simp only [step, hph, hph2]
      exact h
    | failed cur e =>
      simp only [step, hph, hph2]
      exact h
    | claiming =>
      by_cases hcur : tasks.length ≤ s1.cursor
      · have hcur2 : tasks.length ≤ s2.cursor := h1 ▸ hcur
        simp only [step, hph, hph2, if_pos hcur, if_pos hcur2, schedCore]
        rw [h1, h2, h3, h4]
      · have hcur2 : ¬ tasks.length ≤ s2.cursor := h1 ▸ hcur
        simp only [step, hph, hph2, if_neg hcur, if_neg hcur2, schedCore]
        rw [h1, h2, h3, h4]
    | running cur =>
      cases ht : tasks.get? cur with
      | none =>
        simp only [step, hph, hph2, ht]
        exact h
      | some t =>
        cases t with
        | ok a =>
          simp only [step, hph, hph2, ht, schedCore]
          rw [h1, h2, h3, h4]
        | error e =>
          simp only [step, hph, hph2, ht, schedCore]
          rw [h1, h3, h2, h4]

theorem schedCore_foldl_congr {ε α : Type} (tasks : List (Except ε α)) :
    ∀ (evs : List Ev) {s1 s2 : SchedState ε α}, schedCore s1 = schedCore s2 →
    schedCore (evs.foldl (step tasks) s1) = schedCore (evs.foldl (step tasks) s2) := by
  intro evs
  induction evs with
  | nil => intro s1 s2 h; exact h
  | cons ev evs ih =>
    intro s1 s2 h
    cases ev with
    | work w => exact ih (schedCore_step_work tasks h w)
    | setThrottle t =>
      refine ih ?_
      rw [schedCore_step_setThrottle, schedCore_step_setThrottle]
      exact h

theorem schedCore_filter {ε α : Type} (tasks : List (Except ε α)) :
    ∀ (evs : List Ev) (s : SchedState ε α),
    schedCore (evs.foldl (step tasks) s) =
      schedCore ((evs.filter isWork).foldl (step tasks) s) := by
  intro evs
  induction evs with
  | nil => intro s; rfl
  | cons ev evs ih =>
    intro s
    cases ev with
    | work w =>
      rw [List.filter_cons_of_pos (by rfl), List.foldl_cons, List.foldl_cons]
      exact ih (step tasks s (.work w))
    | setThrottle t =>
      rw [List.filter_cons_of_neg (by simp [isWork]), List.foldl_cons]
      calc schedCore (evs.foldl (step tasks) (step tasks s (.setThrottle t)))
          = schedCore ((evs.filter isWork).foldl (step tasks)
              (step tasks s (.setThrottle t))) := ih _
        _ = schedCore ((evs.filter isWork).foldl (step tasks) s) :=
            schedCore_foldl_congr tasks _ (schedCore_step_setThrottle tasks s t)

/-! ## Object-assign lemmas for the config surface -/

theorem objAssign_not_mem :
    ∀ (src : List (String × JsVal)) (o : JsObj) (k : String),
    k ∉ src.map Prod.fst → objAssign o src k = o k := by
  intro src
  induction src with
  | nil => intro o k _; rfl
  | cons kv t ih =>
    intro o k hk
    have hk' : ¬ (k = kv.1 ∨ k ∈ t.map Prod.fst) := by simpa using hk
    rw [show objAssign o (kv :: t) = objAssign (objSet o kv.1 kv.2) t from rfl]
    rw [ih _ k (fun hm => hk' (Or.inr hm))]
    simp only [objSet]
    rw [if_neg (fun hEq => hk' (Or.inl hEq))]

theorem objAssign_mem_nodup :
    ∀ (src : List (String × JsVal)) (o : JsObj) (k : String) (v : JsVal),
    (k, v) ∈ src → (src.map Prod.fst).Nodup → objAssign o src k = some v := by
  intro src
  induction src with
  | nil => intro o k v hm _; cases hm
  | cons kv t ih =>
    intro o k v hm hnd
    rcases List.mem_cons.1 hm with heq | hmem
    · have hknot : k ∉ t.map Prod.fst := by
        rw [← heq] at hnd
        simp only [List.map_cons, List.nodup_cons] at hnd
        exact hnd.1
      rw [show objAssign o (kv :: t) = objAssign (objSet o kv.1 kv.2) t from rfl]
      rw [objAssign_not_mem t _ k hknot]
      rw [← heq]
      simp [objSet]
    · refine ih _ k v hmem ?_
      simp only [List.map_cons, List.nodup_cons] at hnd
      exact hnd.2

/-! ## Bridging lemmas for runWithConcurrency -/

theorem run_eq_foldl {ε α : Type} (cfg : Config) (tasks : List (Except ε α))
    (limit : Option Int) (evs : List Ev) (h : tasks.length ≠ 0) :
    runWithConcurrency cfg tasks limit evs
      = evs.foldl (step tasks) (initState cfg tasks (spawnedWorkers cfg tasks limit)) := by
  simp [runWithConcurrency, h]

theorem run_inv {ε α : Type} (cfg : Config) (tasks : List (Except ε α))
    (limit : Option Int) (evs : List Ev) :
    SchedInv tasks (spawnedWorkers cfg tasks limit)
      (runWithConcurrency cfg tasks limit evs) := by
  by_cases h : tasks.length = 0
  · have h0 : spawnedWorkers cfg tasks limit = 0 := by simp [spawnedWorkers, h]
    rw [show runWithConcurrency cfg tasks limit evs = initState cfg tasks 0 from by
      simp [runWithConcurrency, h]]
    rw [h0]
    exact initState_inv cfg tasks 0
  · rw [run_eq_foldl cfg tasks limit evs h]
    exact foldl_inv evs (initState_inv cfg tasks _)

theorem spawned_pos {ε α : Type} (cfg : Config) (tasks : List (Except ε α))
    (limit : Option Int) (h : tasks.length ≠ 0) :
    0 < spawnedWorkers cfg tasks limit := by
  simp only [spawnedWorkers, if_neg h]
  have h1 : (1 : Int) ≤ max 1 (limit.getD cfg.CONCURRENCY) := le_max_left _ _
  have h2 : (1 : Int) ≤ (tasks.length : Int) := by
    have : 1 ≤ tasks.length := by omega
    exact_mod_cast this
  have h3 : (1 : Int) ≤ effectiveSize cfg tasks limit := le_min h1 h2
  omega

/-! ## Claim theorems -/

/-- C1: For every batch of operations and every concurrency limit,
runWithConcurrency returns a result sequence of the same length as the batch
in which, for every index i, slot i holds the outcome of operation i,
regardless of the order in which operations actually complete: for every
schedule under which all workers have settled and the join resolves with a
result sequence r, r has the batch's length and r[i] is the outcome of
operation i. -/
theorem C1_order_preservation {ε α : Type} (cfg : Config) (tasks : List (Except ε α))
    (limit : Option Int) (evs : List Ev) (r : List (Option α))
    (hset : allSettled (runWithConcurrency cfg tasks limit evs) = true)
    (hjoin : joinResult (runWithConcurrency cfg tasks limit evs) = .ok r) :
    r.length = tasks.length ∧
      ∀ j (hj : j < tasks.length), r.get? j = some ((tasks.get ⟨j, hj⟩).toOption) := by
  have H := run_inv cfg tasks limit evs
  cases hf : (runWithConcurrency cfg tasks limit evs).failures with
  | cons e t =>
    unfold joinResult at hjoin
    rw [hf] at hjoin
    cases hjoin
  | nil =>
    unfold joinResult at hjoin
    rw [hf] at hjoin
    have hr : r = (runWithConcurrency cfg tasks limit evs).results :=
      (Except.ok.inj hjoin).symm
    subst hr
    refine ⟨H.hres, ?_⟩
    intro j hj
    have hne : tasks.length ≠ 0 := by omega
    obtain ⟨v, hv, hok⟩ := written_of_settled H hset hf
      (spawned_pos cfg tasks limit hne) j hj
    have hget : tasks.get? j = some (tasks.get ⟨j, hj⟩) := List.get?_eq_get hj
    rw [hget] at hok
    rw [hv, Option.some.inj hok]
    rfl

/-- C1 witness: a concrete two-element batch, drained by a complete schedule,
resolves with both outcomes in their original slots. -/
theorem C1_order_preservation_witness :
    allSettled (runWithConcurrency (ε := String) initialConfig
        [Except.ok 10, Except.ok 20] none
        [Ev.work 0, Ev.work 1, Ev.work 0, Ev.work 1, Ev.work 0, Ev.work 1]) = true ∧
    joinResult (runWithConcurrency (ε := String) initialConfig
        [Except.ok 10, Except.ok 20] none
        [Ev.work 0, Ev.work 1, Ev.work 0, Ev.work 1, Ev.work 0, Ev.work 1])
      = .ok [some 10, some 20] ∧
    (([some 10, some 20] : List (Option Nat)).length
        = ([Except.ok 10, Except.ok 20] : List (Except String Nat)).length ∧
      ∀ j (hj : j < ([Except.ok 10, Except.ok 20] : List (Except String Nat)).length),
        ([some 10, some 20] : List (Option Nat)).get? j
          = some ((([Except.ok 10, Except.ok 20] : List (Except String Nat)).get
              ⟨j, hj⟩).toOption)) :=
  ⟨by decide, by decide,
    C1_order_preservation initialConfig [Except.ok 10, Except.ok 20] none
      [Ev.work 0, Ev.work 1, Ev.work 0, Ev.work 1, Ev.work 0, Ev.work 1]
      [some 10, some 20] (by decide) (by decide)⟩

/-- C2: If any operation in the batch raises an unhandled failure (here: the
batch contains error tasks, all carrying the failure e), then (1) under every
schedule in which all workers have settled, the join rejects with e as the
scheduler's own failure; (2) workers are never cancelled: from any schedule
prefix there is a continuation under which every worker runs to settlement,
and results already written are preserved unchanged, not rolled back; and
(3) in every reachable state, every written slot holds its operation's own
success outcome. -/
theorem C2_failure_propagation {ε α : Type} (cfg : Config) (tasks : List (Except ε α))
    (limit : Option Int) (e : ε)
    (hmem : Except.error e ∈ tasks)
    (huniq : ∀ t ∈ tasks, ∀ e0, t = Except.error e0 → e0 = e) :
    (∀ evs, allSettled (runWithConcurrency cfg tasks limit evs) = true →
      joinResult (runWithConcurrency cfg tasks limit evs) = .error e) ∧
    (∀ evs, ∃ evs2,
      allSettled (runWithConcurrency cfg tasks limit (evs ++ evs2)) = true ∧
      ∀ j v, (runWithConcurrency cfg tasks limit evs).results.get? j = some (some v) →
        (runWithConcurrency cfg tasks limit (evs ++ evs2)).results.get? j
          = some (some v)) ∧
    (∀ evs j v,
      (runWithConcurrency cfg tasks limit evs).results.get? j = some (some v) →
      tasks.get? j = some (.ok v)) := by
  have hne : tasks.length ≠ 0 := by
    cases tasks with
    | nil => cases hmem
    | cons t ts => simp
  obtain ⟨i, hi⟩ := List.mem_iff_get?.1 hmem
  refine ⟨?_, ?_, ?_⟩
  · intro evs hset
    have H := run_inv cfg tasks limit evs
    cases hf : (runWithConcurrency cfg tasks limit evs).failures with
    | nil =>
      exact absurd hf
        (failures_ne_nil_of_error H hset (spawned_pos cfg tasks limit hne) hi)
    | cons e1 t =>
      unfold joinResult
      rw [hf]
      have he1 : e1 = e := by
        have hmem1 : e1 ∈ (runWithConcurrency cfg tasks limit evs).failures := by
          rw [hf]; exact List.mem_cons_self e1 t
        exact huniq _ (H.hfailures e1 hmem1) e1 rfl
      rw [he1]
  · intro evs
    refine ⟨drainEvs (spawnedWorkers cfg tasks limit) tasks.length, ?_, ?_⟩
    · rw [run_eq_foldl cfg tasks limit _ hne, List.foldl_append,
        ← run_eq_foldl cfg tasks limit evs hne]
      exact drain_allSettled (run_inv cfg tasks limit evs)
    · intro j v hv
      rw [run_eq_foldl cfg tasks limit _ hne, List.foldl_append,
        ← run_eq_foldl cfg tasks limit evs hne]
      exact foldl_written _ (run_inv cfg tasks limit evs) hv
  · intro evs j v hv
    exact (run_inv cfg tasks limit evs).hcorrect j v hv

/-- C2 witness: a concrete batch with one failing operation, under a complete
schedule, rejects with that failure. -/
theorem C2_failure_propagation_witness :
    (Except.error "boom" ∈ ([Except.ok 1, Except.error "boom"] : List (Except String Nat))) ∧
    joinResult (runWithConcurrency initialConfig
        ([Except.ok 1, Except.error "boom"] : List (Except String Nat)) none
        [Ev.work 0, Ev.work 1, Ev.work 0, Ev.work 1, Ev.work 0]) = .error "boom" :=
  ⟨by decide,
    (C2_failure_propagation initialConfig
        ([Except.ok 1, Except.error "boom"] : List (Except String Nat)) none "boom"
        (by decide)
        (by
          intro t ht e0 he
          simp only [List.mem_cons, List.mem_singleton, List.not_mem_nil, or_false] at ht
          rcases ht with rfl | rfl
          · cases he
          · exact (Except.error.inj he).symm)).1
      [Ev.work 0, Ev.work 1, Ev.work 0, Ev.work 1, Ev.work 0] (by decide)⟩

/-- C3: For an operation whose every attempt yields a retryable HTTP status
(429 or 5xx), postJSON makes exactly maxRetry attempts, sleeping
min(2000, 200·2^(attempt-1)) ms between consecutive attempts (200, 400, 800
for maxRetry = 4), and then throws an error carrying the message
`HTTP <status>: <body text>` of the final attempt (given a nonempty body
text). -/
theorem C3_http_retry_exhaustion {β : Type} (cfg : Config) (oc : Int → FetchOutcome β)
    (st : Int → Int) (tx : Int → String)
    (hR : 1 ≤ cfg.MAX_RETRY)
    (hoc : ∀ k, 1 ≤ k → k ≤ cfg.MAX_RETRY → oc k = .httpError (st k) (tx k))
    (hre : ∀ k, 1 ≤ k → k ≤ cfg.MAX_RETRY → retryableStatus (st k) = true)
    (htx : tx cfg.MAX_RETRY ≠ "") :
    (postJSON cfg oc).attempts = cfg.MAX_RETRY.toNat ∧
    (postJSON cfg oc).sleeps = (List.range (cfg.MAX_RETRY.toNat - 1)).map
      (fun j => min 2000 (200 * 2 ^ j)) ∧
    (postJSON cfg oc).result = .error ⟨"Error",
      "HTTP " ++ toString (st cfg.MAX_RETRY) ++ ": " ++ tx cfg.MAX_RETRY⟩ := by
  have h := postLoop_http_all cfg.MAX_RETRY oc st tx cfg.MAX_RETRY.toNat 1 le_rfl hR
    (by omega) hoc hre
  unfold postJSON
  rw [h]
  refine ⟨rfl, ?_, ?_⟩
  · refine List.map_congr_left (fun j _ => ?_)
    norm_num
  · unfold httpErrorMessage
    rw [if_neg htx]

/-- C3 witness: a persistent 500 with body "boom" under the default
maxRetry = 4 makes 4 attempts, sleeps 200, 400, 800 ms, and throws
HTTP 500: boom. -/
theorem C3_http_retry_exhaustion_witness :
    ((1 : Int) ≤ initialConfig.MAX_RETRY) ∧
    (postJSON (β := Nat) initialConfig (fun _ => .httpError 500 "boom")).attempts = 4 ∧
    (postJSON (β := Nat) initialConfig (fun _ => .httpError 500 "boom")).sleeps
      = [200, 400, 800] ∧
    (postJSON (β := Nat) initialConfig (fun _ => .httpError 500 "boom")).result
      = .error ⟨"Error", "HTTP 500: boom"⟩ := by
  have h := C3_http_retry_exhaustion (β := Nat) initialConfig
    (fun _ => .httpError 500 "boom") (fun _ => 500) (fun _ => "boom")
    (by decide) (fun _ _ _ => rfl) (fun _ _ _ => rfl) (by decide)
  exact ⟨by decide, h.1.trans (by decide), h.2.1.trans (by decide), h.2.2.trans (by decide)⟩

/-- C4: For an operation whose every attempt fails at transport level (the
timeout guard's AbortError or a recognizable connectivity failure, i.e. the
retriable test passes), postJSON makes exactly maxRetry attempts, sleeping
300·attempt ms between consecutive attempts (300, 600, 900 for maxRetry = 4),
and then rethrows the final transport exception as-is. -/
theorem C4_transport_retry_exhaustion {β : Type} (cfg : Config)
    (oc : Int → FetchOutcome β) (nm : Int → String) (ms : Int → String)
    (hR : 1 ≤ cfg.MAX_RETRY)
    (hoc : ∀ k, 1 ≤ k → k ≤ cfg.MAX_RETRY → oc k = .exn (nm k) (ms k))
    (hre : ∀ k, 1 ≤ k → k ≤ cfg.MAX_RETRY → retriable ⟨nm k, ms k⟩ = true) :
    (postJSON cfg oc).attempts = cfg.MAX_RETRY.toNat ∧
    (postJSON cfg oc).sleeps = (List.range (cfg.MAX_RETRY.toNat - 1)).map
      (fun j : Nat => 300 * ((j : Int) + 1)) ∧
    (postJSON cfg oc).result = .error ⟨nm cfg.MAX_RETRY, ms cfg.MAX_RETRY⟩ := by
  have h := postLoop_exn_all cfg.MAX_RETRY oc nm ms cfg.MAX_RETRY.toNat 1 le_rfl hR
    (by omega) hoc hre
  unfold postJSON
  rw [h]
  refine ⟨rfl, ?_, rfl⟩
  refine List.map_congr_left (fun j _ => ?_)
  ring

/-- C4 witness: a persistent AbortError under the default maxRetry = 4 makes
4 attempts, sleeps 300, 600, 900 ms, and rethrows that AbortError. -/
theorem C4_transport_retry_exhaustion_witness :
    ((1 : Int) ≤ initialConfig.MAX_RETRY) ∧
    (postJSON (β := Nat) initialConfig (fun _ => .exn "AbortError" "aborted")).attempts
      = 4 ∧
    (postJSON (β := Nat) initialConfig (fun _ => .exn "AbortError" "aborted")).sleeps
      = [300, 600, 900] ∧
    (postJSON (β := Nat) initialConfig (fun _ => .exn "AbortError" "aborted")).result
      = .error ⟨"AbortError", "aborted"⟩ := by
  have h := C4_transport_retry_exhaustion (β := Nat) initialConfig
    (fun _ => .exn "AbortError" "aborted") (fun _ => "AbortError") (fun _ => "aborted")
    (by decide) (fun _ _ _ => rfl) (fun _ _ _ => rfl)
  exact ⟨by decide, h.1.trans (by decide), h.2.1.trans (by decide), h.2.2⟩

/-- C8 (amended): with maxRetry ≥ 1, every execution of postJSON's attempt
loop terminates by returning a parsed response body or by throwing — the
fall-through path, which would resolve with no value, is unreachable under
that precondition. (The code contains no explicit guard for it: see the
counterexample, where maxRetry < 1 reaches the fall-through and resolves
undefined rather than fail an assertion.) -/
theorem C8_no_fallthrough {β : Type} (cfg : Config) (oc : Int → FetchOutcome β)
    (hR : 1 ≤ cfg.MAX_RETRY) :
    (∃ b, (postJSON cfg oc).result = .ok (some b)) ∨
      (∃ e, (postJSON cfg oc).result = .error e) := by
  have h := postLoop_result_ne_none cfg.MAX_RETRY oc cfg.MAX_RETRY.toNat 1
    (by omega) (by omega)
  unfold postJSON
  cases hres : (postLoop cfg.MAX_RETRY oc 1 cfg.MAX_RETRY.toNat).result with
  | error e => exact Or.inr ⟨e, rfl⟩
  | ok ob =>
    cases ob with
    | none => exact absurd hres h
    | some b => exact Or.inl ⟨b, rfl⟩

/-- C8 counterexample: the loop fall-through is not guarded against
explicitly — with MAX_RETRY = 0 the loop body never runs, no assertion or
error fires, and postJSON resolves with no value (undefined) after zero
attempts. -/
theorem C8_no_explicit_guard :
    (postJSON (β := Nat) { initialConfig with MAX_RETRY := 0 }
        (fun _ => .success 7)).result = .ok none ∧
    (postJSON (β := Nat) { initialConfig with MAX_RETRY := 0 }
        (fun _ => .success 7)).attempts = 0 := by
  decide

/-- C8 witness: with the default maxRetry = 4 and a succeeding target the
result is a parsed body or a thrown error. -/
theorem C8_no_fallthrough_witness :
    ((1 : Int) ≤ initialConfig.MAX_RETRY) ∧
    ((∃ b, (postJSON (β := Nat) initialConfig (fun _ => .success 7)).result
        = .ok (some b)) ∨
      (∃ e, (postJSON (β := Nat) initialConfig (fun _ => .success 7)).result
        = .error e)) :=
  ⟨by decide, C8_no_fallthrough initialConfig (fun _ => .success 7) (by decide)⟩

/-- C10: If the configured MAX_RETRY is less than 1 when postJSON is called,
postJSON resolves successfully with no value (undefined) without issuing a
single request or throwing: zero attempts, zero sleeps, result ok-none. -/
theorem C10_nonpositive_maxRetry {β : Type} (cfg : Config) (oc : Int → FetchOutcome β)
    (h : cfg.MAX_RETRY < 1) :
    postJSON cfg oc = ⟨.ok none, 0, []⟩ := by
  unfold postJSON
  rw [show cfg.MAX_RETRY.toNat = 0 from by omega]
  rfl

/-- C10 witness: MAX_RETRY = 0 resolves undefined with zero attempts even
though every fetch would succeed. -/
theorem C10_nonpositive_maxRetry_witness :
    (({ initialConfig with MAX_RETRY := 0 } : Config).MAX_RETRY < 1) ∧
    postJSON (β := Nat) { initialConfig with MAX_RETRY := 0 } (fun _ => .success 7)
      = ⟨.ok none, 0, []⟩ :=
  ⟨by decide, C10_nonpositive_maxRetry { initialConfig with MAX_RETRY := 0 }
    (fun _ => .success 7) (by decide)⟩

/-- C5 counterexample: the claim that in-flight workers behave according to
the configuration snapshot taken at worker start is false. Two runs of the
same two-task batch differ only in a mid-run setConfig of THROTTLE_MS
(landing while worker 0 is awaiting task 0, which it claimed before the
mutation): without the mutation the worker performs no throttle sleep; with
it, the same in-flight worker sleeps 1000 ms — the throttle is read live,
not from a worker-start snapshot, so the behaviour of work already in
flight is not identical. -/
theorem C5_live_throttle_read :
    (runWithConcurrency (ε := String) initialConfig [Except.ok 10, Except.ok 20] none
        [Ev.work 0, Ev.setThrottle 1000, Ev.work 0]).sleepTrace = [(0, 1000)] ∧
    (runWithConcurrency (ε := String) initialConfig [Except.ok 10, Except.ok 20] none
        [Ev.work 0, Ev.work 0]).sleepTrace = [] ∧
    (runWithConcurrency (ε := String) initialConfig [Except.ok 10, Except.ok 20] none
          [Ev.work 0, Ev.setThrottle 1000, Ev.work 0]).sleepTrace
      ≠ (runWithConcurrency (ε := String) initialConfig [Except.ok 10, Except.ok 20] none
          [Ev.work 0, Ev.work 0]).sleepTrace := by
  decide

/-- C5 (amended): a mid-run setConfig mutation never alters the scheduling
core of an in-flight batch — the cursor, the results array, the worker
states, and the failure list after any schedule are identical to those of
the same schedule with all config-mutation events erased. Only the throttle
sleeps can differ, because CONFIG.THROTTLE_MS is read live at each loop
iteration rather than from a snapshot taken at worker start (postJSON, by
contrast, does read TIMEOUT_MS and MAX_RETRY once per call at request
start). -/
theorem C5_mutation_core_invariant {ε α : Type} (cfg : Config)
    (tasks : List (Except ε α)) (limit : Option Int) (evs : List Ev) :
    schedCore (runWithConcurrency cfg tasks limit evs)
      = schedCore (runWithConcurrency cfg tasks limit (evs.filter isWork)) := by
  by_cases h : tasks.length = 0
  · simp [runWithConcurrency, h]
  · rw [run_eq_foldl cfg tasks limit evs h, run_eq_foldl cfg tasks limit _ h]
    exact schedCore_filter tasks evs _

/-- C6 counterexample: unknown keys are not ignored — Object.assign copies
them into CONFIG, and they change subsequent getConfig() snapshots. -/
theorem C6_unknown_key_visible :
    getConfig (setConfig CONFIG [("FOO", JsVal.num 1)]) "FOO"
      ≠ getConfig CONFIG "FOO" := by
  decide

/-- C6 (amended): setConfig merges every provided key (with distinct keys in
the partial object, as JS object literals have) over the current values —
known configuration keys and unknown keys alike take the provided value in
subsequent getConfig() snapshots, and keys not provided keep their current
value. -/
theorem C6_assign_merges_all (cfg : JsObj) (c : List (String × JsVal))
    (hnd : (c.map Prod.fst).Nodup) :
    (∀ k v, (k, v) ∈ c → getConfig (setConfig cfg c) k = some v) ∧
    (∀ k, k ∉ c.map Prod.fst → getConfig (setConfig cfg c) k = getConfig cfg k) := by
  constructor
  · intro k v hm
    exact objAssign_mem_nodup c cfg k v hm hnd
  · intro k hk
    exact objAssign_not_mem c cfg k hk

/-- C6 witness: merging a single unknown key FOO over the initial CONFIG
makes getConfig report it. -/
theorem C6_assign_merges_all_witness :
    (([("FOO", JsVal.num 1)].map Prod.fst).Nodup) ∧
    getConfig (setConfig CONFIG [("FOO", JsVal.num 1)]) "FOO" = some (JsVal.num 1) :=
  ⟨by decide,
    (C6_assign_merges_all CONFIG [("FOO", JsVal.num 1)] (by decide)).1 "FOO"
      (JsVal.num 1) (by decide)⟩

/-- C7: For every non-empty batch and every requested limit (or its absence),
the number of spawned workers equals clamp(limit ?? configuredConcurrency,
1, len(batch)); it is always between 1 and the batch length, and a limit
below 1 is raised to 1. -/
theorem C7_effective_concurrency {ε α : Type} (cfg : Config)
    (tasks : List (Except ε α)) (limit : Option Int) (evs : List Ev)
    (h : tasks.length ≠ 0) :
    (runWithConcurrency cfg tasks limit evs).workers.length
        = (clampSpec (limit.getD cfg.CONCURRENCY) 1 tasks.length).toNat ∧
    1 ≤ (runWithConcurrency cfg tasks limit evs).workers.length ∧
    (runWithConcurrency cfg tasks limit evs).workers.length ≤ tasks.length ∧
    (∀ l : Int, limit = some l → l < 1 →
      (runWithConcurrency cfg tasks limit evs).workers.length = 1) := by
  have hw : (runWithConcurrency cfg tasks limit evs).workers.length
      = spawnedWorkers cfg tasks limit := (run_inv cfg tasks limit evs).hw
  have hclamp : spawnedWorkers cfg tasks limit
      = (clampSpec (limit.getD cfg.CONCURRENCY) 1 tasks.length).toNat := by
    simp only [spawnedWorkers, if_neg h, effectiveSize, clampSpec]
    rw [min_comm]
  have hn1 : (1 : Int) ≤ (tasks.length : Int) := by
    have : 1 ≤ tasks.length := by omega
    exact_mod_cast this
  refine ⟨hw.trans hclamp, ?_, ?_, ?_⟩
  · rw [hw]
    exact spawned_pos cfg tasks limit h
  · rw [hw, hclamp]
    have h1 : clampSpec (limit.getD cfg.CONCURRENCY) 1 tasks.length
        ≤ (tasks.length : Int) := min_le_left _ _
    omega
  · intro l hl hl1
    rw [hw, hclamp, hl]
    have hmax : max (1 : Int) ((some l).getD cfg.CONCURRENCY) = 1 := by
      simp only [Option.getD]
      omega
    simp only [clampSpec] at *
    rw [show ((some l).getD cfg.CONCURRENCY) = l from rfl]
    rw [show max (1 : Int) l = 1 from by omega]
    rw [show min ((tasks.length : Int)) 1 = 1 from by omega]
    rfl

/-- C7 witness: a 3-element batch with limit 100 spawns exactly 3 workers. -/
theorem C7_effective_concurrency_witness :
    (([Except.ok 1, Except.ok 2, Except.ok 3] : List (Except String Nat)).length ≠ 0) ∧
    (runWithConcurrency initialConfig
        ([Except.ok 1, Except.ok 2, Except.ok 3] : List (Except String Nat))
        (some 100) []).workers.length = 3 :=
  ⟨by decide,
    ((C7_effective_concurrency initialConfig
        ([Except.ok 1, Except.ok 2, Except.ok 3] : List (Except String Nat))
        (some 100) [] (by decide)).1).trans (by decide)⟩

/-- C9: runWithConcurrency applied to an empty batch returns an empty result
sequence immediately (under any schedule and any limit) and spawns zero
workers. -/
theorem C9_empty_batch (ε α : Type) (cfg : Config) (limit : Option Int)
    (evs : List Ev) :
    (runWithConcurrency (ε := ε) (α := α) cfg [] limit evs).results = [] ∧
    (runWithConcurrency (ε := ε) (α := α) cfg [] limit evs).workers = [] ∧
    joinResult (runWithConcurrency (ε := ε) (α := α) cfg [] limit evs) = .ok [] ∧
    spawnedWorkers (ε := ε) (α := α) cfg [] limit = 0 :=
  ⟨rfl, rfl, rfl, rfl⟩
